import Mathlib

/-!
# exr_channel_cleanup

A shallow embedding of `src/lib/exrChannelCleanup/exr_channel_cleanup.cpp` and
`src/lib/exrChannelCleanup/main.cpp`, followed by theorems about the channel
planning loop, the order of file operations and the command line.

Conventions of the embedding
* a `std::string` or C string is a `List Char`, one `Char` per `char` of the
  string (the `Char` with the same code); all string operations used by the
  program (`find`, `substr`, `strstr`, `strcmp`, regular expression matching)
  work `char` by `char`;
* a `std::map` keyed by name (`Imf::ChannelList`, `Imf::FrameBuffer`, the
  channel table of `Image`) is the list of its entries in iteration order,
  that is in increasing `strcmp` order of the keys, and `map[key] = value`
  is `mapInsert`; a key of type `Imf::Name` keeps the first 255 `char`s of
  the string it is made from (`imfName`);
* the pixels of one channel over the data window are a `List Nat` (the bit
  patterns in scan line order);
* the process is explicit state passing: the files on disk are a map from
  path to file contents, and every run records the sequence of its file
  operations.
-/

namespace ExrChannelCleanup

/-! ## Strings -/

/-- A `std::string` (or a NUL-terminated C string): its `char`s in order. -/
abbrev Name := List Char

/-- The test `strcmp (a, b) < 0`, the ordering of the keys of a `std::map`
keyed by name. -/
def nameLt : Name → Name → Bool
  | [], [] => false
  | [], _ :: _ => true
  | _ :: _, [] => false
  | a :: as, b :: bs =>
    if a.toNat < b.toNat then true
    else if a.toNat = b.toNat then nameLt as bs
    else false

/-- The call `s.find (pat)` of `std::string`: the position of the first
occurrence of `pat` in `s`, `none` standing for `npos`. -/
def strFind (s pat : Name) : Option Nat :=
  if pat.isPrefixOf s then some 0
  else match s with
    | [] => none
    | _ :: t => (strFind t pat).map (· + 1)

/-- The call `s.substr (pos, len)` of `std::string`, `len = none` standing
for `npos` (the rest of the string). The exception for `pos > s.size ()` is
not modelled; `substr4_in_range` shows the program never raises it. -/
def substr (s : Name) (pos : Nat) (len : Option Nat) : Name :=
  match len with
  | none => s.drop pos
  | some n => (s.drop pos).take n

/-- The call `strstr (hay, needle)`: the tail of `hay` that starts at the first
occurrence of `needle`, `none` standing for the null pointer. -/
def strstr (hay needle : Name) : Option Name :=
  if needle.isPrefixOf hay then some hay
  else match hay with
    | [] => none
    | _ :: t => strstr t needle

/-! ## Associative containers -/

/-- The assignment `map[k] = v` on a `std::map` keyed by name, the map being
the list of its entries in increasing key order. -/
def mapInsert {β : Type} (k : Name) (v : β) : List (Name × β) → List (Name × β)
  | [] => [(k, v)]
  | e :: m =>
    if nameLt k e.1 then (k, v) :: e :: m
    else if k = e.1 then (k, v) :: m
    else e :: mapInsert k v m

/-- The lookup `map.find (k)` on a `std::map` keyed by name. -/
def mapFind {β : Type} (k : Name) : List (Name × β) → Option β
  | [] => none
  | e :: m => if k = e.1 then some e.2 else mapFind k m

/-- The keys of a map, in iteration order. -/
def mapKeys {β : Type} (m : List (Name × β)) : List Name := m.map Prod.fst

/-- The invariant of a `std::map` in iteration order: keys strictly increase. -/
def MapSorted {β : Type} (m : List (Name × β)) : Prop :=
  m.Pairwise (fun a b => nameLt a.1 b.1 = true)

/-! ## Regular expressions (`boost::regex`, whole-string `regex_match`) -/

/-- One item of a bracket expression: a single character or a range. -/
inductive SetItem where
  | single (c : Char)
  | range (lo hi : Char)

/-- Membership of a character in one item of a bracket expression. -/
def SetItem.contains : SetItem → Char → Bool
  | .single c, x => x == c
  | .range lo hi, x => decide (lo.toNat ≤ x.toNat) && decide (x.toNat ≤ hi.toNat)

/-- Abstract syntax of the regular expressions used by the program, with the
constructors needed to take derivatives (`fail`, `eps`, `alt`, `star`). -/
inductive Regex where
  | fail
  | eps
  | set (items : List SetItem)
  | dot
  | seq (r s : Regex)
  | alt (r s : Regex)
  | star (r : Regex)
  | plus (r : Regex)
  | group (r : Regex)

/-- Does the expression match the empty string. -/
def Regex.nullable : Regex → Bool
  | .fail => false
  | .eps => true
  | .set _ => false
  | .dot => false
  | .seq r s => r.nullable && s.nullable
  | .alt r s => r.nullable || s.nullable
  | .star _ => true
  | .plus r => r.nullable
  | .group r => r.nullable

/-- The derivative of an expression by one character: it matches `w` exactly
when the expression matches `c :: w`. -/
def Regex.deriv : Regex → Char → Regex
  | .fail, _ => .fail
  | .eps, _ => .fail
  | .set items, c => if items.any (fun i => i.contains c) then .eps else .fail
  | .dot, _ => .eps
  | .seq r s, c =>
    if r.nullable then .alt (.seq (r.deriv c) s) (s.deriv c)
    else .seq (r.deriv c) s
  | .alt r s, c => .alt (r.deriv c) (s.deriv c)
  | .star r, c => .seq (r.deriv c) (.star r)
  | .plus r, c => .seq (r.deriv c) (.star r)
  | .group r, c => r.deriv c

/-- The call `boost::regex_match (s, r)`: the whole of `s` matches `r`. -/
def regex_match (s : Name) (r : Regex) : Bool :=
  (s.foldl Regex.deriv r).nullable

/-- The strings an expression matches (the reference semantics of `Regex`). -/
inductive Regex.Matches : Regex → Name → Prop where
  | eps : Regex.Matches .eps []
  | set {items : List SetItem} {c : Char} :
      items.any (fun i => i.contains c) = true → Regex.Matches (.set items) [c]
  | dot {c : Char} : Regex.Matches .dot [c]
  | seq {r s : Regex} {u v : Name} :
      Regex.Matches r u → Regex.Matches s v → Regex.Matches (.seq r s) (u ++ v)
  | altL {r s : Regex} {u : Name} : Regex.Matches r u → Regex.Matches (.alt r s) u
  | altR {r s : Regex} {u : Name} : Regex.Matches s u → Regex.Matches (.alt r s) u
  | starNil {r : Regex} : Regex.Matches (.star r) []
  | starCons {r : Regex} {u v : Name} :
      Regex.Matches r u → Regex.Matches (.star r) v → Regex.Matches (.star r) (u ++ v)
  | plus {r : Regex} {u v : Name} :
      Regex.Matches r u → Regex.Matches (.star r) v → Regex.Matches (.plus r) (u ++ v)
  | group {r : Regex} {u : Name} : Regex.Matches r u → Regex.Matches (.group r) u

/-- The bracket expression `[a-zA-Z0-9_]`. -/
def wordSet : List SetItem :=
  [.range 'a' 'z', .range 'A' 'Z', .range '0' '9', .single '_']

/-- The bracket expression `[Rred]`. -/
def redSet : List SetItem :=
  [.single 'R', .single 'r', .single 'e', .single 'd']

/-- The bracket expression `[RGBA]`. -/
def rgbaSet : List SetItem :=
  [.single 'R', .single 'G', .single 'B', .single 'A']

/-- Line 27: `boost::regex RED_CHANNEL_MATCH("([a-zA-Z0-9_]+).([Rred]+)")`. -/
def RED_CHANNEL_MATCH : Regex :=
  .seq (.seq (.group (.plus (.set wordSet))) .dot) (.group (.plus (.set redSet)))

/-- Line 28: `boost::regex RGBA_CHANNEL_MATCH("([RGBA])")`. -/
def RGBA_CHANNEL_MATCH : Regex :=
  .group (.set rgbaSet)

/-! ## OpenEXR data -/

/-- `Imf::PixelType`. -/
inductive PixelType where
  | UINT
  | HALF
  | FLOAT
  deriving DecidableEq, Repr, Inhabited

/-- `Imf::Channel`. -/
structure Channel where
  type : PixelType
  xSampling : Int
  ySampling : Int
  pLinear : Bool
  deriving DecidableEq, Repr, Inhabited

/-- `Imf::ChannelList`: a map from channel name to `Channel`. -/
abbrev ChannelList := List (Name × Channel)

/-- `Imath::V2i`. -/
structure V2i where
  x : Int
  y : Int
  deriving DecidableEq, Repr

/-- `Imath::Box2i`. -/
structure Box2i where
  min : V2i
  max : V2i
  deriving DecidableEq, Repr

/-- The pixel values of one channel over the data window. -/
abbrev PixelData := List Nat

/-- The part of `Imf::Header` the program uses: data window and channels. -/
structure Header where
  dataWindow : Box2i
  channels : ChannelList
  deriving DecidableEq, Repr

/-- `Imf::Slice`: the pixel type, the base address of the memory the slice
describes (the address is the name of the image plane it points into) and
the sampling rates. -/
structure Slice where
  type : PixelType
  base : Name
  xSampling : Int
  ySampling : Int
  deriving DecidableEq, Repr

/-- `Imf::Name`, the key type of `Imf::ChannelList` and `Imf::FrameBuffer`: a
buffer of 256 `char`s filled by `strncpy`, so that a C string stored in it
keeps its first 255 `char`s. -/
def imfName (s : Name) : Name := s.take 255

/-- The calls `ChannelList::insert (name, channel)` and
`FrameBuffer::insert (name, slice)` with a C string `name`: the assignment
`map[Name (name)] = value`. (They throw for an empty `name`; every name the
program passes has at least one `char`.) -/
def imfInsert {β : Type} (name : Name) (v : β) (m : List (Name × β)) : List (Name × β) :=
  mapInsert (imfName name) v m

/-- `Imf::FrameBuffer`: a map from channel name to `Slice`. -/
abbrev FrameBuffer := List (Name × Slice)

/-- An OpenEXR file on disk: its data window and, for every channel in the
iteration order of its channel list, the channel and its pixels. -/
structure ExrFile where
  dataWindow : Box2i
  channels : List (Name × Channel × PixelData)
  deriving DecidableEq, Repr

/-- The header read from a file (`in.header ()`). -/
def ExrFile.header (f : ExrFile) : Header :=
  { dataWindow := f.dataWindow, channels := f.channels.map (fun e => (e.1, e.2.1)) }

/-- The stored pixels of the channel of a given name. -/
def ExrFile.pixels (f : ExrFile) (name : Name) : Option PixelData :=
  (mapFind name f.channels).map Prod.snd

/-- Number of pixels in a data window. -/
def Box2i.area (d : Box2i) : Nat :=
  ((d.max.x - d.min.x + 1) * (d.max.y - d.min.y + 1)).toNat

/-- A freshly allocated pixel plane over a data window. -/
def zeros (d : Box2i) : PixelData := List.replicate d.area 0

/-! ## The image container (`image.h`) -/

/-- Modelled from the spec: one channel of the `Image` container declared in
`image.h`, which is not among the sources. The spec describes the container
as holding one pixel plane per output channel, sized to the data window, that
is handed out as a slice; `base` is the identity of that plane. -/
structure ImageChannel where
  base : Name
  type : PixelType
  pixels : PixelData
  deriving DecidableEq, Repr

/-- Modelled from the spec: the `Image` container declared in `image.h`, which
is not among the sources: a data window and one pixel plane per channel
name. -/
structure Image where
  dataWindow : Box2i
  channels : List (Name × ImageChannel)
  deriving DecidableEq, Repr

/-- Modelled from the spec: the default constructed `Image` of `image.h`
(no channels). -/
def Image.empty : Image :=
  { dataWindow := ⟨⟨0, 0⟩, ⟨0, 0⟩⟩, channels := [] }

/-- Modelled from the spec: `Image::resize` of `image.h` sets the data window
and sizes every plane to it. -/
def Image.resize (img : Image) (d : Box2i) : Image :=
  { dataWindow := d,
    channels := img.channels.map (fun e => (e.1, { e.2 with pixels := zeros d })) }

/-- Modelled from the spec: `Image::addChannel` of `image.h` allocates the
plane of the named channel, of the given type and sized to the data window;
a channel of that name has one plane only. -/
def Image.addChannel (img : Image) (name : Name) (type : PixelType) : Image :=
  { img with
    channels := mapInsert name
      { base := name, type := type, pixels := zeros img.dataWindow } img.channels }

/-- Modelled from the spec: `Image::channel` of `image.h` returns the named
channel. The program only asks for a channel it has just added
(`channel_addChannel`); for an absent name the model returns an empty plane. -/
def Image.channel (img : Image) (name : Name) : ImageChannel :=
  (mapFind name img.channels).getD { base := name, type := .HALF, pixels := [] }

/-- Modelled from the spec: `ImageChannel::slice` of `image.h`, the slice that
addresses the plane of the channel. The plane has one value per pixel of the
data window (`addChannel` is given the pixel type only), so the slice has the
sampling rates 1 and 1, the defaults of the `Imf::Slice` constructor. -/
def ImageChannel.slice (ch : ImageChannel) : Slice :=
  { type := ch.type, base := ch.base, xSampling := 1, ySampling := 1 }

/-- A store of pixel data through a slice base address: the plane with that
identity receives the data. -/
def Image.store (img : Image) (base : Name) (data : PixelData) : Image :=
  { img with
    channels := img.channels.map
      (fun e => if e.2.base = base then (e.1, { e.2 with pixels := data }) else e) }

/-- A load of pixel data through a slice base address. -/
def Image.load (img : Image) (base : Name) : PixelData :=
  match img.channels.find? (fun e => decide (e.2.base = base)) with
  | some e => e.2.pixels
  | none => zeros img.dataWindow

/-! ## `exr_channel_cleanup` -/

/-- The variables the channel loop of `exr_channel_cleanup` updates. -/
structure LoopState where
  header : Header
  image : Image
  inFb : FrameBuffer
  outFb : FrameBuffer
  deriving DecidableEq, Repr

/-- Line 59: `string channelPeriodDelimiter = "."`. -/
def channelPeriodDelimiter : Name := ".".toList

/-- Line 60: `string channelUnderscoreDelimiter = "mat_"`. -/
def channelUnderscoreDelimiter : Name := "mat_".toList

/-- Lines 75 to 78: the `remove mat_` step applied to a channel token. -/
def removeMat (channelToken : Name) : Name :=
  if (strstr channelToken channelUnderscoreDelimiter).isSome then
    substr channelToken 4 none
  else channelToken

/-- Lines 72 to 78: the value of `channelToken` for a source channel name. -/
def channelToken (tempInChanName : Name) : Name :=
  removeMat (substr tempInChanName 0 (strFind tempInChanName channelPeriodDelimiter))

/-- Line 80: the value of `tempOutChanName` for a source channel name. -/
def tempOutChanName (tempInChanName : Name) : Name :=
  "matte.".toList ++ channelToken tempInChanName

/-- Lines 66 to 104: the body of the loop over the source channels, for the
channel `j` (name and `Channel`). -/
def loopBody (st : LoopState) (j : Name × Channel) : LoopState :=
  let inChannel := j.2
  let inChanName := j.1
  let outChanName := tempOutChanName j.1
  let st1 :=
    if regex_match inChanName RED_CHANNEL_MATCH then
      let image := st.image.addChannel outChanName inChannel.type
      { header := { st.header with channels := imfInsert outChanName inChannel st.header.channels },
        image := image,
        inFb := imfInsert inChanName (image.channel outChanName).slice st.inFb,
        outFb := imfInsert outChanName (image.channel outChanName).slice st.outFb }
    else st
  if regex_match inChanName RGBA_CHANNEL_MATCH then
    let image := st1.image.addChannel inChanName inChannel.type
    { header := { st1.header with channels := imfInsert inChanName inChannel st1.header.channels },
      image := image,
      inFb := imfInsert inChanName (image.channel inChanName).slice st1.inFb,
      outFb := imfInsert inChanName (image.channel inChanName).slice st1.outFb }
  else st1

/-- Lines 42 to 46 and 25: the state in which the channel loop starts, for the
header read from the input file. -/
def loopInit (header : Header) : LoopState :=
  { header := { dataWindow := header.dataWindow, channels := [] },
    image := Image.empty.resize header.dataWindow,
    inFb := [],
    outFb := [] }

/-- Lines 62 to 105: the loop over `in.header ().channels ()`. -/
def channelLoop (channels : ChannelList) (st : LoopState) : LoopState :=
  channels.foldl loopBody st

/-- The exceptions the OpenEXR calls of the program can raise. -/
inductive Exc where
  /-- The constructor `InputFile in (name)` cannot open or decode the file. -/
  | cannotOpen (path : Name)
  /-- The call `in.setFrameBuffer` rejects the slice of a channel (`ArgExc`). -/
  | inputFrameBuffer (channel : Name)
  /-- The constructor `OutputFile out (name, header)` rejects a header without
  channels (`ArgExc`). -/
  | emptyChannelList
  /-- The constructor `OutputFile out (name, header)` cannot create the file. -/
  | cannotCreate (path : Name)
  /-- The call `out.setFrameBuffer` rejects the slice of a channel (`ArgExc`). -/
  | outputFrameBuffer (channel : Name)
  deriving DecidableEq, Repr

/-- Line 107, `in.setFrameBuffer (inFb)`: the call throws when a slice has
sampling rates other than those of the file channel of the same name; a
slice without a file channel of its name is accepted. -/
def inputSetFrameBuffer (file : ExrFile) (inFb : FrameBuffer) : Option Exc :=
  match inFb.find? (fun e =>
      match mapFind e.1 file.header.channels with
      | some c => decide (c.xSampling ≠ e.2.xSampling ∨ c.ySampling ≠ e.2.ySampling)
      | none => false) with
  | some e => some (.inputFrameBuffer e.1)
  | none => none

/-- What `in.readPixels` over the whole data window stores once the frame
buffer is accepted: every slice of the frame buffer, in the iteration order
of the frame buffer, receives the pixels of the file channel of the same name
(zeros when the file has none). -/
def fillPlanes (file : ExrFile) (inFb : FrameBuffer) (img : Image) : Image :=
  inFb.foldl
    (fun im e => im.store e.2.base ((file.pixels e.1).getD (zeros file.dataWindow))) img

/-- Lines 107 and 108: `in.setFrameBuffer (inFb)` followed by `in.readPixels`
over the whole data window. -/
def readPixels (file : ExrFile) (inFb : FrameBuffer) (img : Image) : Except Exc Image :=
  match inputSetFrameBuffer file inFb with
  | some x => .error x
  | none => .ok (fillPlanes file inFb img)

/-- The check of the header made by the constructor `OutputFile out (name,
header)` on line 113 before it creates the file: a header without channels
is rejected. (The other checks of the library concern attributes the program
copies unchanged from the header it has read.) -/
def headerSanityCheck (header : Header) : Option Exc :=
  if header.channels.isEmpty then some .emptyChannelList else none

/-- Line 120, `out.setFrameBuffer (outFb)`: the call throws when a channel of
the header has a slice of its name whose pixel type or sampling rates differ
from those of the channel; a channel without a slice is accepted. -/
def outputSetFrameBuffer (header : Header) (outFb : FrameBuffer) : Option Exc :=
  match header.channels.find? (fun e =>
      match mapFind e.1 outFb with
      | some sl => decide (e.2.type ≠ sl.type ∨ e.2.xSampling ≠ sl.xSampling ∨
          e.2.ySampling ≠ sl.ySampling)
      | none => false) with
  | some e => some (.outputFrameBuffer e.1)
  | none => none

/-- The complete file on disk after `out.writePixels` over the whole data
window: every channel of the header is written from the slice of the same
name (zeros when there is none). -/
def writtenFile (header : Header) (outFb : FrameBuffer) (img : Image) : ExrFile :=
  { dataWindow := header.dataWindow,
    channels := header.channels.map (fun e =>
      (e.1, e.2, match mapFind e.1 outFb with
        | some sl => img.load sl.base
        | none => zeros header.dataWindow)) }

/-- Lines 120 and 121: `out.setFrameBuffer (outFb)` followed by
`out.writePixels` over the whole data window. -/
def writePixels (header : Header) (outFb : FrameBuffer) (img : Image) : Except Exc ExrFile :=
  match outputSetFrameBuffer header outFb with
  | some x => .error x
  | none => .ok (writtenFile header outFb img)

/-- The file on disk when the output file has been created and nothing but
its header written. -/
def headerOnlyFile (header : Header) : ExrFile :=
  { dataWindow := header.dataWindow,
    channels := header.channels.map (fun e => (e.1, e.2, [])) }

/-- One operation of a run on a file or on standard output. -/
inductive FileOp where
  | openRead (path : Name)
  | readPixels (path : Name)
  | closeRead (path : Name)
  | openWrite (path : Name)
  | writePixels (path : Name)
  | closeWrite (path : Name)
  | cout (msg : Name)
  deriving DecidableEq, Repr

/-- The files on disk: the readable OpenEXR files by path, and the paths at
which no file can be created. -/
structure World where
  files : List (Name × ExrFile)
  readOnly : List Name
  deriving DecidableEq, Repr

/-- What a run of `exr_channel_cleanup` did: its file operations in order,
the exception it raised if any, and the files on disk afterwards. -/
structure Run where
  trace : List FileOp
  raised : Option Exc
  world : World
  deriving DecidableEq, Repr

/-- The function `exr_channel_cleanup (inFileName, outFileName, verbose)`. -/
def exr_channel_cleanup (w : World) (inFileName outFileName : Name) (verbose : Bool) : Run :=
  -- lines 36 to 40: find the size of the data window
  match mapFind inFileName w.files with
  | none => { trace := [.openRead inFileName], raised := some (.cannotOpen inFileName), world := w }
  | some in1 =>
    let header := in1.header
    let t1 : List FileOp := [.openRead inFileName, .closeRead inFileName]
    -- lines 42 to 46
    let st0 := loopInit header
    -- lines 49 to 109: read the input image file
    match mapFind inFileName w.files with
    | none =>
      { trace := t1 ++ [.openRead inFileName], raised := some (.cannotOpen inFileName),
        world := w }
    | some in2 =>
      let t2 := t1 ++ [.openRead inFileName] ++
        (if verbose then [.cout ("reading file ".toList ++ inFileName)] else [])
      let st := channelLoop in2.header.channels st0
      -- lines 107 and 108
      match readPixels in2 st.inFb st.image with
      | .error x => { trace := t2 ++ [.closeRead inFileName], raised := some x, world := w }
      | .ok image =>
        let t3 := t2 ++ [.readPixels inFileName, .closeRead inFileName]
        -- lines 112 to 122: write the output image file
        match headerSanityCheck st.header with
        | some x => { trace := t3, raised := some x, world := w }
        | none =>
          if outFileName ∈ w.readOnly then
            { trace := t3 ++ [.openWrite outFileName],
              raised := some (.cannotCreate outFileName), world := w }
          else
            let t4 := t3 ++ [.openWrite outFileName] ++
              (if verbose then [.cout ("writing file ".toList ++ outFileName)] else [])
            match writePixels st.header st.outFb image with
            | .error x =>
              { trace := t4 ++ [.closeWrite outFileName], raised := some x,
                world := { w with
                  files := mapInsert outFileName (headerOnlyFile st.header) w.files } }
            | .ok file =>
              { trace := t4 ++ [.writePixels outFileName, .closeWrite outFileName],
                raised := none,
                world := { w with files := mapInsert outFileName file w.files } }

/-- The file `exr_channel_cleanup` writes for a given input file when none of
the OpenEXR calls throws. -/
def written (f : ExrFile) : ExrFile :=
  let st := channelLoop f.header.channels (loopInit f.header)
  writtenFile st.header st.outFb (fillPlanes f st.inFb st.image)

/-- A file operation that reads the input file. -/
def FileOp.isRead : FileOp → Bool
  | .openRead _ => true
  | .readPixels _ => true
  | .closeRead _ => true
  | _ => false

/-- A file operation that opens the output file for writing or writes it. -/
def FileOp.isWrite : FileOp → Bool
  | .openWrite _ => true
  | .writePixels _ => true
  | .closeWrite _ => true
  | _ => false

/-! ## Derived notions used by the proofs -/

/-- The output channel name the loop body plans a source channel onto: the
name `matte.<token>` under the matte rule, the name itself under the RGBA
rule, `none` when neither rule matches. (`loopBody_eq` relates it to the
loop body.) -/
def target (name : Name) : Option Name :=
  if regex_match name RED_CHANNEL_MATCH then some (tempOutChanName name)
  else if regex_match name RGBA_CHANNEL_MATCH then some name
  else none

/-- The state after one branch of the loop body has planned the source
channel `j` onto the output channel `o`. -/
def planned (st : LoopState) (j : Name × Channel) (o : Name) : LoopState :=
  { header := { st.header with channels := imfInsert o j.2 st.header.channels },
    image := st.image.addChannel o j.2.type,
    inFb := imfInsert j.1 { type := j.2.type, base := o, xSampling := 1, ySampling := 1 }
      st.inFb,
    outFb := imfInsert o { type := j.2.type, base := o, xSampling := 1, ySampling := 1 }
      st.outFb }

/-- The output channel list the channel loop builds for a source header. -/
def plan (header : Header) : ChannelList :=
  (channelLoop header.channels (loopInit header)).header.channels

/-! ## Concrete inputs used in examples -/

/-- The channel built by the constructor `Imf::Channel (type)`: sampling
rates one, not perceptually linear. -/
def Channel.ofType (t : PixelType) : Channel :=
  { type := t, xSampling := 1, ySampling := 1, pLinear := false }

/-- The data window `(0,0)-(1,1)`. -/
def window2x2 : Box2i := { min := ⟨0, 0⟩, max := ⟨1, 1⟩ }

/-- A file whose channel `R` is stored at every second pixel of a row. -/
def subsampledFile : ExrFile :=
  { dataWindow := window2x2,
    channels :=
      [("G".toList, Channel.ofType .HALF, [1, 2, 3, 4]),
       ("R".toList, { type := .HALF, xSampling := 2, ySampling := 1, pLinear := false },
         [5, 6])] }

/-- A disk that holds one file, at the path `in.exr`. -/
def diskWith (f : ExrFile) : World :=
  { files := [("in.exr".toList, f)], readOnly := [] }

/-! ## `main` -/

/-- How a run of `main` ends. -/
inductive Outcome where
  /-- The function `usageMessage (argv0, verbose)` ran: the usage line (and the
  help text when `verbose`) went to standard error and the process left
  through `exit (1)`. -/
  | usage (argv0 : Name) (verbose : Bool)
  /-- The element `argv[i]` with `argc ≤ i` was read and handed on as a
  string. -/
  | argvOverrun (i : Nat)
  /-- The function `exr_channel_cleanup` was called and `main` returned. -/
  | returned (exitStatus : Nat) (run : Run)
  /-- The model of the `while` loop ran out of steps (`parseLoop_fuel` shows
  this does not happen). -/
  | outOfFuel
  deriving DecidableEq, Repr

/-- The exit status of the process, when it ends in an orderly way. -/
def Outcome.exitStatus : Outcome → Option Nat
  | .usage _ _ => some 1
  | .returned s _ => some s
  | .argvOverrun _ => none
  | .outOfFuel => none

/-- Lines 19 to 40 of `main.cpp`: `usageMessage (argv0, verbose)`. -/
def usageMessage (argv0 : Name) (verbose : Bool) : Outcome :=
  .usage argv0 verbose

/-- The call `usageMessage (argv[0], verbose)`, reading `argv[0]`. -/
def usageMessageArgv0 (argv : List Name) (verbose : Bool) : Outcome :=
  match argv.get? 0 with
  | some argv0 => usageMessage argv0 verbose
  | none => .argvOverrun 0

/-- Lines 46 to 48 of `main.cpp`: the variables the command line sets. -/
structure Args where
  inFile : Name
  outFile : Name
  verbose : Bool
  deriving DecidableEq, Repr

/-- Lines 58 to 84 of `main.cpp`: the `while (i < argc)` loop, from index `i`;
the first argument bounds the number of iterations. An `error` ends the
process inside the loop. -/
def parseLoop (argv : List Name) : Nat → Nat → Args → Except Outcome Args
  | 0, _, _ => .error .outOfFuel
  | fuel + 1, i, a =>
    if i < argv.length then
      match argv.get? i with
      | none => .error (.argvOverrun i)
      | some s =>
        -- lines 60 to 66
        let verbose := if s = "-v".toList then true else a.verbose
        let i1 := if s = "-v".toList then i + 1 else i
        -- lines 67 to 83
        match argv.get? i1 with
        | none => .error (.argvOverrun i1)
        | some s1 =>
          if s1 = "-h".toList then .error (usageMessageArgv0 argv true)
          else if a.inFile = [] then
            parseLoop argv fuel (i1 + 1) { inFile := s1, outFile := a.outFile, verbose := verbose }
          else
            parseLoop argv fuel (i1 + 1) { inFile := a.inFile, outFile := s1, verbose := verbose }
    else .ok a

/-- The function `main (argc, argv)` of `main.cpp`, with `argc = argv.length`. -/
def main (w : World) (argv : List Name) : Outcome :=
  -- lines 54 and 55
  if argv.length < 2 then usageMessageArgv0 argv true
  else
    match parseLoop argv argv.length 1 { inFile := [], outFile := [], verbose := false } with
    | .error o => o
    | .ok a =>
      -- lines 86 and 87
      if a.inFile = [] then usageMessageArgv0 argv false
      else
        -- lines 93 and 94
        let outFile := if a.outFile = [] then a.inFile else a.outFile
        -- lines 100 to 111
        let run := exr_channel_cleanup w a.inFile outFile a.verbose
        .returned (if run.raised.isSome then 1 else 0) run

/-! ## The wording of the specification, for comparison -/

/-- The name normalizer as the specification words it: a token that begins
with `mat_` loses exactly that prefix, any other token is unchanged. -/
def specNormalize (token : Name) : Name :=
  if "mat_".toList.isPrefixOf token then token.drop 4 else token

/-- A letter, a digit or an underscore. -/
def isWordChar (c : Char) : Bool :=
  wordSet.any (fun i => i.contains c)

/-- One of the characters `R`, `r`, `e`, `d`. -/
def isRedChar (c : Char) : Bool :=
  redSet.any (fun i => i.contains c)

/-- The matte rule as the specification words it: `<token>.<suffix>` with a
non-empty token of letters, digits and underscores, a literal period, and a
suffix that is exactly `R` or `r`. -/
def specMatteCandidate (name : Name) : Bool :=
  match name.reverse with
  | s :: p :: t => (s == 'R' || s == 'r') && p == '.' && !t.isEmpty && t.all isWordChar
  | _ => false

/-! ## The order on names -/

theorem nameLt_irrefl (a : Name) : nameLt a a = false := by
  induction a with
  | nil => rfl
  | cons c t ih => simp [nameLt, ih]

theorem nameLt_ne {a b : Name} (h : nameLt a b = true) : a ≠ b := by
  intro e
  rw [e, nameLt_irrefl] at h
  exact Bool.false_ne_true h

/-! ## Maps keyed by name -/

theorem mapInsert_cons {β : Type} (k : Name) (v : β) (e : Name × β) (m : List (Name × β)) :
    mapInsert k v (e :: m) =
      if nameLt k e.1 then (k, v) :: e :: m
      else if k = e.1 then (k, v) :: m
      else e :: mapInsert k v m := by
  simp only [mapInsert]

theorem mapFind_cons {β : Type} (k : Name) (e : Name × β) (m : List (Name × β)) :
    mapFind k (e :: m) = if k = e.1 then some e.2 else mapFind k m := by
  simp only [mapFind]

theorem mapFind_mapInsert_self {β : Type} (k : Name) (v : β) (m : List (Name × β)) :
    mapFind k (mapInsert k v m) = some v := by
  induction m with
  | nil => simp [mapInsert, mapFind]
  | cons e m ih =>
    rw [mapInsert_cons]
    by_cases h1 : nameLt k e.1 = true
    · rw [if_pos h1, mapFind_cons, if_pos rfl]
    · rw [if_neg h1]
      by_cases h2 : k = e.1
      · rw [if_pos h2, mapFind_cons, if_pos rfl]
      · rw [if_neg h2, mapFind_cons, if_neg h2, ih]

theorem length_mapInsert_le {β : Type} (k : Name) (v : β) (m : List (Name × β)) :
    (mapInsert k v m).length ≤ m.length + 1 := by
  induction m with
  | nil => simp [mapInsert]
  | cons e m ih =>
    rw [mapInsert_cons]
    split_ifs
    · simp
    · simp
    · simp only [List.length_cons]
      omega

theorem MapSorted.nodup_keys {β : Type} {m : List (Name × β)} (hm : MapSorted m) :
    (mapKeys m).Nodup := by
  unfold mapKeys
  unfold List.Nodup
  rw [List.pairwise_map]
  exact hm.imp (fun h => nameLt_ne h)

theorem matches_eps_iff {w : Name} : Regex.Matches .eps w ↔ w = [] := by
  constructor
  · intro h; cases h; rfl
  · intro h; rw [h]; exact .eps

theorem not_matches_fail {w : Name} : ¬ Regex.Matches .fail w := by
  intro h; cases h

theorem matches_set_iff {items : List SetItem} {w : Name} :
    Regex.Matches (.set items) w ↔
      ∃ c, w = [c] ∧ items.any (fun i => i.contains c) = true := by
  constructor
  · intro h; cases h with
    | set hc => exact ⟨_, rfl, hc⟩
  · rintro ⟨c, rfl, hc⟩; exact .set hc

theorem matches_dot_iff {w : Name} : Regex.Matches .dot w ↔ ∃ c, w = [c] := by
  constructor
  · intro h; cases h; exact ⟨_, rfl⟩
  · rintro ⟨c, rfl⟩; exact .dot

theorem matches_seq_iff {r s : Regex} {w : Name} :
    Regex.Matches (.seq r s) w ↔
      ∃ u v, w = u ++ v ∧ Regex.Matches r u ∧ Regex.Matches s v := by
  constructor
  · intro h; cases h with
    | seq hu hv => exact ⟨_, _, rfl, hu, hv⟩
  · rintro ⟨u, v, rfl, hu, hv⟩; exact .seq hu hv

theorem matches_alt_iff {r s : Regex} {w : Name} :
    Regex.Matches (.alt r s) w ↔ Regex.Matches r w ∨ Regex.Matches s w := by
  constructor
  · intro h; cases h with
    | altL hu => exact Or.inl hu
    | altR hu => exact Or.inr hu
  · rintro (h | h)
    · exact .altL h
    · exact .altR h

theorem matches_star_iff {r : Regex} {w : Name} :
    Regex.Matches (.star r) w ↔
      w = [] ∨ ∃ u v, w = u ++ v ∧ Regex.Matches r u ∧ Regex.Matches (.star r) v := by
  constructor
  · intro h; cases h with
    | starNil => exact Or.inl rfl
    | starCons hu hv => exact Or.inr ⟨_, _, rfl, hu, hv⟩
  · rintro (rfl | ⟨u, v, rfl, hu, hv⟩)
    · exact .starNil
    · exact .starCons hu hv

theorem matches_plus_iff {r : Regex} {w : Name} :
    Regex.Matches (.plus r) w ↔
      ∃ u v, w = u ++ v ∧ Regex.Matches r u ∧ Regex.Matches (.star r) v := by
  constructor
  · intro h; cases h with
    | plus hu hv => exact ⟨_, _, rfl, hu, hv⟩
  · rintro ⟨u, v, rfl, hu, hv⟩; exact .plus hu hv

theorem matches_group_iff {r : Regex} {w : Name} :
    Regex.Matches (.group r) w ↔ Regex.Matches r w := by
  constructor
  · intro h; cases h with
    | group hu => exact hu
  · intro h; exact .group h

theorem nullable_iff (r : Regex) : r.nullable = true ↔ Regex.Matches r [] := by
  induction r with
  | fail => simp [Regex.nullable, not_matches_fail]
  | eps => simp [Regex.nullable, matches_eps_iff]
  | set items => simp [Regex.nullable, matches_set_iff]
  | dot => simp [Regex.nullable, matches_dot_iff]
  | seq r s ihr ihs =>
    rw [matches_seq_iff]
    simp only [Regex.nullable, Bool.and_eq_true, ihr, ihs]
    constructor
    · rintro ⟨h1, h2⟩; exact ⟨[], [], rfl, h1, h2⟩
    · rintro ⟨u, v, huv, h1, h2⟩
      have hu : u = [] := (List.append_eq_nil.1 huv.symm).1
      have hv : v = [] := (List.append_eq_nil.1 huv.symm).2
      rw [hu] at h1; rw [hv] at h2
      exact ⟨h1, h2⟩
  | alt r s ihr ihs =>
    rw [matches_alt_iff]
    simp only [Regex.nullable, Bool.or_eq_true, ihr, ihs]
  | star r _ =>
    simp only [Regex.nullable, true_iff]
    exact .starNil
  | plus r ih =>
    rw [matches_plus_iff]
    simp only [Regex.nullable, ih]
    constructor
    · intro h; exact ⟨[], [], rfl, h, .starNil⟩
    · rintro ⟨u, v, huv, h1, _⟩
      have hu : u = [] := (List.append_eq_nil.1 huv.symm).1
      rw [hu] at h1
      exact h1
  | group r ih =>
    rw [matches_group_iff]
    simpa [Regex.nullable] using ih

theorem matches_of_deriv (r : Regex) : ∀ (c : Char) (w : Name),
    Regex.Matches (r.deriv c) w → Regex.Matches r (c :: w) := by
  induction r with
  | fail => intro c w h; exact absurd h not_matches_fail
  | eps => intro c w h; exact absurd h not_matches_fail
  | set items =>
    intro c w h
    simp only [Regex.deriv] at h
    by_cases hc : items.any (fun i => i.contains c) = true
    · rw [if_pos hc, matches_eps_iff] at h
      rw [h]; exact .set hc
    · rw [if_neg hc] at h
      exact absurd h not_matches_fail
  | dot =>
    intro c w h
    simp only [Regex.deriv, matches_eps_iff] at h
    rw [h]; exact .dot
  | seq r s ihr ihs =>
    intro c w h
    simp only [Regex.deriv] at h
    have key : ∀ x, Regex.Matches (.seq (r.deriv c) s) x → Regex.Matches (.seq r s) (c :: x) := by
      intro x hx
      obtain ⟨u, v, rfl, hu, hv⟩ := matches_seq_iff.1 hx
      exact Regex.Matches.seq (ihr c u hu) hv
    by_cases hn : r.nullable = true
    · rw [if_pos hn] at h
      rcases matches_alt_iff.1 h with h | h
      · exact key w h
      · exact Regex.Matches.seq ((nullable_iff r).1 hn) (ihs c w h)
    · rw [if_neg hn] at h
      exact key w h
  | alt r s ihr ihs =>
    intro c w h
    simp only [Regex.deriv] at h
    rcases matches_alt_iff.1 h with h | h
    · exact .altL (ihr c w h)
    · exact .altR (ihs c w h)
  | star r ih =>
    intro c w h
    simp only [Regex.deriv] at h
    obtain ⟨u, v, rfl, hu, hv⟩ := matches_seq_iff.1 h
    exact Regex.Matches.starCons (ih c u hu) hv
  | plus r ih =>
    intro c w h
    simp only [Regex.deriv] at h
    obtain ⟨u, v, rfl, hu, hv⟩ := matches_seq_iff.1 h
    exact Regex.Matches.plus (ih c u hu) hv
  | group r ih =>
    intro c w h
    simp only [Regex.deriv] at h
    exact .group (ih c w h)

theorem deriv_of_matches {r : Regex} {x : Name} (h : Regex.Matches r x) :
    ∀ (c : Char) (w : Name), x = c :: w → Regex.Matches (r.deriv c) w := by
  induction h with
  | eps => intro c w e; cases e
  | set hc =>
    intro c w e
    injection e with e1 e2
    subst e1; subst e2
    simp only [Regex.deriv]
    rw [if_pos hc]; exact .eps
  | dot =>
    intro c w e
    injection e with e1 e2
    subst e2
    simp only [Regex.deriv]; exact .eps
  | @seq r s u v hu hv ihu ihv =>
    intro c w e
    simp only [Regex.deriv]
    cases u with
    | nil =>
      have hn : r.nullable = true := (nullable_iff r).2 hu
      rw [if_pos hn]
      exact .altR (ihv c w e)
    | cons a u2 =>
      injection e with e1 e2
      subst e1; subst e2
      have hd : Regex.Matches (.seq (r.deriv a) s) (u2 ++ v) := .seq (ihu a u2 rfl) hv
      by_cases hn : r.nullable = true
      · rw [if_pos hn]; exact .altL hd
      · rw [if_neg hn]; exact hd
  | altL hu ih =>
    intro c w e
    simp only [Regex.deriv]
    exact .altL (ih c w e)
  | altR hu ih =>
    intro c w e
    simp only [Regex.deriv]
    exact .altR (ih c w e)
  | starNil => intro c w e; cases e
  | @starCons r u v hu hv ihu ihv =>
    intro c w e
    cases u with
    | nil => exact ihv c w e
    | cons a u2 =>
      injection e with e1 e2
      subst e1; subst e2
      simp only [Regex.deriv]
      exact .seq (ihu a u2 rfl) hv
  | @plus r u v hu hv ihu ihv =>
    intro c w e
    cases u with
    | nil =>
      have := ihv c w e
      simp only [Regex.deriv] at this ⊢
      exact this
    | cons a u2 =>
      injection e with e1 e2
      subst e1; subst e2
      simp only [Regex.deriv]
      exact .seq (ihu a u2 rfl) hv
  | group hu ih =>
    intro c w e
    simp only [Regex.deriv]
    exact ih c w e

theorem regex_match_iff (s : Name) (r : Regex) :
    regex_match s r = true ↔ Regex.Matches r s := by
  induction s generalizing r with
  | nil => exact nullable_iff r
  | cons c s ih =>
    have h1 : regex_match (c :: s) r = regex_match s (r.deriv c) := rfl
    rw [h1, ih]
    exact ⟨matches_of_deriv r c s, fun h => deriv_of_matches h c s rfl⟩

theorem matches_star_set_iff (items : List SetItem) (w : Name) :
    Regex.Matches (.star (.set items)) w ↔
      ∀ c ∈ w, items.any (fun i => i.contains c) = true := by
  constructor
  · intro h
    generalize hr : Regex.star (.set items) = r at h
    induction h with
    | starNil => intro c hc; cases hc
    | @starCons r2 u v hu hv _ ihv =>
      injection hr with hr2
      subst hr2
      obtain ⟨a, rfl, ha⟩ := matches_set_iff.1 hu
      intro c hc
      rcases List.mem_cons.1 hc with hc | hc
      · rw [hc]; exact ha
      · exact ihv rfl c hc
    | eps => cases hr
    | set _ => cases hr
    | dot => cases hr
    | seq _ _ _ _ => cases hr
    | altL _ _ => cases hr
    | altR _ _ => cases hr
    | plus _ _ _ _ => cases hr
    | group _ _ => cases hr
  · intro h
    induction w with
    | nil => exact .starNil
    | cons a w ih =>
      have ha := h a (List.mem_cons_self _ _)
      have hw := ih (fun c hc => h c (List.mem_cons_of_mem _ hc))
      exact Regex.Matches.starCons (u := [a]) (.set ha) hw

theorem matches_plus_set_iff (items : List SetItem) (w : Name) :
    Regex.Matches (.plus (.set items)) w ↔
      w ≠ [] ∧ ∀ c ∈ w, items.any (fun i => i.contains c) = true := by
  rw [matches_plus_iff]
  constructor
  · rintro ⟨u, v, rfl, hu, hv⟩
    obtain ⟨a, rfl, ha⟩ := matches_set_iff.1 hu
    refine ⟨by simp, ?_⟩
    intro c hc
    rcases List.mem_cons.1 hc with hc | hc
    · rw [hc]; exact ha
    · exact (matches_star_set_iff items v).1 hv c hc
  · rintro ⟨hne, h⟩
    cases w with
    | nil => exact absurd rfl hne
    | cons a w =>
      refine ⟨[a], w, rfl, .set (h a (List.mem_cons_self _ _)), ?_⟩
      exact (matches_star_set_iff items w).2 (fun c hc => h c (List.mem_cons_of_mem _ hc))

/-- The matte rule of line 27, spelled out: a non-empty run of letters, digits
and underscores, then any one character, then a non-empty run of characters
among `R`, `r`, `e`, `d`. -/
theorem RED_CHANNEL_MATCH_iff (n : Name) :
    regex_match n RED_CHANNEL_MATCH = true ↔
      ∃ tok c suf, n = tok ++ c :: suf ∧
        tok ≠ [] ∧ (∀ x ∈ tok, isWordChar x = true) ∧
        suf ≠ [] ∧ (∀ x ∈ suf, isRedChar x = true) := by
  rw [regex_match_iff]
  unfold RED_CHANNEL_MATCH isWordChar isRedChar
  constructor
  · intro h
    obtain ⟨uv, suf, rfl, h1, h2⟩ := matches_seq_iff.1 h
    obtain ⟨tok, d, rfl, h3, h4⟩ := matches_seq_iff.1 h1
    obtain ⟨c, rfl⟩ := matches_dot_iff.1 h4
    have h5 := (matches_plus_set_iff _ _).1 (matches_group_iff.1 h3)
    have h6 := (matches_plus_set_iff _ _).1 (matches_group_iff.1 h2)
    exact ⟨tok, c, suf, by simp, h5.1, h5.2, h6.1, h6.2⟩
  · rintro ⟨tok, c, suf, rfl, h1, h2, h3, h4⟩
    have e : tok ++ c :: suf = (tok ++ [c]) ++ suf := by simp
    rw [e]
    refine .seq (.seq (.group ?_) .dot) (.group ?_)
    · exact (matches_plus_set_iff _ _).2 ⟨h1, h2⟩
    · exact (matches_plus_set_iff _ _).2 ⟨h3, h4⟩

/-- The RGBA rule of line 28, spelled out: the name is one of the four
one-letter names `R`, `G`, `B`, `A`. -/
theorem RGBA_CHANNEL_MATCH_iff (n : Name) :
    regex_match n RGBA_CHANNEL_MATCH = true ↔
      n = ['R'] ∨ n = ['G'] ∨ n = ['B'] ∨ n = ['A'] := by
  rw [regex_match_iff]
  unfold RGBA_CHANNEL_MATCH
  rw [matches_group_iff, matches_set_iff]
  constructor
  · rintro ⟨c, rfl, hc⟩
    simp only [rgbaSet, List.any_cons, List.any_nil, SetItem.contains, Bool.or_false,
      Bool.or_eq_true, beq_iff_eq] at hc
    rcases hc with h | h | h | h <;> simp [h]
  · rintro (rfl | rfl | rfl | rfl) <;> exact ⟨_, rfl, by decide⟩

theorem strstr_length {hay needle res : Name} (h : strstr hay needle = some res) :
    needle.length ≤ hay.length := by
  induction hay with
  | nil =>
    unfold strstr at h
    by_cases hp : needle.isPrefixOf [] = true
    · exact (List.isPrefixOf_iff_prefix.1 hp).length_le
    · rw [if_neg hp] at h; cases h
  | cons c t ih =>
    unfold strstr at h
    by_cases hp : needle.isPrefixOf (c :: t) = true
    · exact (List.isPrefixOf_iff_prefix.1 hp).length_le
    · rw [if_neg hp] at h
      have := ih h
      simp only [List.length_cons]
      omega

/-- The call `channelToken.substr (4)` on line 77 is in range: a token in which
`strstr` finds `mat_` has at least four characters. -/
theorem substr4_in_range (channelToken : Name)
    (h : (strstr channelToken channelUnderscoreDelimiter).isSome = true) :
    4 ≤ channelToken.length := by
  obtain ⟨res, hres⟩ := Option.isSome_iff_exists.1 h
  exact strstr_length hres

theorem strstr_at_start {hay needle : Name} (h : needle.isPrefixOf hay = true) :
    strstr hay needle = some hay := by
  cases hay with
  | nil => unfold strstr; rw [if_pos h]
  | cons c t => unfold strstr; rw [if_pos h]

theorem removeMat_mat_append (t : Name) : removeMat ("mat_".toList ++ t) = t := by
  have hp : channelUnderscoreDelimiter.isPrefixOf ("mat_".toList ++ t) = true := by
    simp [channelUnderscoreDelimiter, List.isPrefixOf]
  unfold removeMat
  rw [strstr_at_start hp]
  simp [substr]

/-- On a token that begins with `mat_`, and on a token in which `mat_` does not
occur, the `remove mat_` step does what the specification words. -/
theorem removeMat_eq_specNormalize (token : Name)
    (h : "mat_".toList.isPrefixOf token = true ∨
      strstr token channelUnderscoreDelimiter = none) :
    removeMat token = specNormalize token := by
  unfold removeMat specNormalize
  rcases h with h | h
  · have hs : strstr token channelUnderscoreDelimiter = some token := strstr_at_start h
    rw [hs, if_pos h]
    rfl
  · have hp : ¬ "mat_".toList.isPrefixOf token = true := by
      intro hp
      have hs : strstr token channelUnderscoreDelimiter = some token := strstr_at_start hp
      rw [hs] at h
      cases h
    rw [h, if_neg hp]
    rfl

theorem red_match_length {n : Name} (h : regex_match n RED_CHANNEL_MATCH = true) :
    3 ≤ n.length := by
  obtain ⟨tok, c, suf, rfl, h1, _, h3, _⟩ := (RED_CHANNEL_MATCH_iff n).1 h
  have := List.length_pos.2 h1
  have := List.length_pos.2 h3
  simp only [List.length_append, List.length_cons]
  omega

theorem rgba_match_length {n : Name} (h : regex_match n RGBA_CHANNEL_MATCH = true) :
    n.length = 1 := by
  rcases (RGBA_CHANNEL_MATCH_iff n).1 h with h | h | h | h <;> rw [h] <;> rfl

theorem red_rgba_disjoint (n : Name) :
    ¬ (regex_match n RED_CHANNEL_MATCH = true ∧ regex_match n RGBA_CHANNEL_MATCH = true) := by
  rintro ⟨h1, h2⟩
  have := red_match_length h1
  have := rgba_match_length h2
  omega

theorem target_eq_some_iff (x n : Name) :
    target x = some n ↔
      (regex_match x RED_CHANNEL_MATCH = true ∧ n = tempOutChanName x) ∨
      (regex_match x RGBA_CHANNEL_MATCH = true ∧ n = x) := by
  unfold target
  cases hm : regex_match x RED_CHANNEL_MATCH with
  | true =>
    have hr : regex_match x RGBA_CHANNEL_MATCH = false := by
      cases h : regex_match x RGBA_CHANNEL_MATCH with
      | false => rfl
      | true => exact absurd ⟨hm, h⟩ (red_rgba_disjoint x)
    simp [hr, eq_comm]
  | false =>
    cases hr : regex_match x RGBA_CHANNEL_MATCH with
    | true => simp [eq_comm]
    | false => simp

theorem imfName_length_le (s : Name) : (imfName s).length ≤ 255 := by
  unfold imfName
  rw [List.length_take]
  omega

/-- The loop body asks `image.channel` only for a channel it has just added. -/
theorem channel_addChannel (img : Image) (n : Name) (t : PixelType) :
    (img.addChannel n t).channel n =
      { base := n, type := t, pixels := zeros img.dataWindow } := by
  simp [Image.channel, Image.addChannel, mapFind_mapInsert_self]

theorem loopBody_eq (st : LoopState) (j : Name × Channel) :
    loopBody st j = match target j.1 with
      | some o => planned st j o
      | none => st := by
  unfold loopBody target
  cases hm : regex_match j.1 RED_CHANNEL_MATCH with
  | true =>
    have hr : regex_match j.1 RGBA_CHANNEL_MATCH = false := by
      cases h : regex_match j.1 RGBA_CHANNEL_MATCH with
      | false => rfl
      | true => exact absurd ⟨hm, h⟩ (red_rgba_disjoint j.1)
    simp [hm, hr, channel_addChannel, ImageChannel.slice, planned]
  | false =>
    cases hr : regex_match j.1 RGBA_CHANNEL_MATCH with
    | true => simp [hm, hr, channel_addChannel, ImageChannel.slice, planned]
    | false => simp [hm, hr]

theorem channelLoop_nil (st : LoopState) : channelLoop [] st = st := rfl

theorem channelLoop_cons (j : Name × Channel) (l : ChannelList) (st : LoopState) :
    channelLoop (j :: l) st = channelLoop l (loopBody st j) := rfl

theorem length_loopBody (st : LoopState) (j : Name × Channel) :
    (loopBody st j).header.channels.length ≤ st.header.channels.length + 1 := by
  rw [loopBody_eq]
  cases target j.1 with
  | none => simp
  | some o => exact length_mapInsert_le _ _ _

theorem length_channelLoop (l : ChannelList) (st : LoopState) :
    (channelLoop l st).header.channels.length ≤ st.header.channels.length + l.length := by
  induction l generalizing st with
  | nil => simp [channelLoop_nil]
  | cons j l ih =>
    rw [channelLoop_cons]
    have h1 := ih (loopBody st j)
    have h2 := length_loopBody st j
    simp only [List.length_cons]
    omega

theorem mapKeys_map {β γ : Type} (g : Name → β → γ) (m : List (Name × β)) :
    mapKeys (m.map (fun e => (e.1, g e.1 e.2))) = mapKeys m := by
  unfold mapKeys
  rw [List.map_map]
  rfl

theorem keys_writtenFile (header : Header) (outFb : FrameBuffer) (img : Image) :
    mapKeys (writtenFile header outFb img).channels = mapKeys header.channels :=
  mapKeys_map (fun (k : Name) (c : Channel) => ((c, match mapFind k outFb with
    | some sl => img.load sl.base
    | none => zeros header.dataWindow) : Channel × PixelData)) header.channels

theorem written_keys (f : ExrFile) :
    mapKeys (written f).channels =
      mapKeys (channelLoop f.header.channels (loopInit f.header)).header.channels :=
  keys_writtenFile _ _ _

theorem target_of_red {x : Name} (h : regex_match x RED_CHANNEL_MATCH = true) :
    target x = some (tempOutChanName x) :=
  (target_eq_some_iff x _).2 (Or.inl ⟨h, rfl⟩)

/-- A run on a file whose channel `R` has the sampling rate 2 raises the
exception of `in.setFrameBuffer` and writes nothing. -/
theorem subsampled_source_raises :
    (exr_channel_cleanup (diskWith subsampledFile) "in.exr".toList "out.exr".toList
      false).raised = some (.inputFrameBuffer "R".toList) ∧
    (exr_channel_cleanup (diskWith subsampledFile) "in.exr".toList "out.exr".toList
      false).world = diskWith subsampledFile := by
  decide

/-- An output name of more than 255 `char`s is not its own key. -/
theorem imfName_ne_of_long {s : Name} (h : 255 < s.length) : imfName s ≠ s := by
  intro e
  have := imfName_length_le s
  rw [e] at this
  omega

/-- The loop body enters a matte candidate in the output header under the
first 255 `char`s of its output name. -/
theorem matte_key_is_cut (st : LoopState) (j : Name × Channel)
    (hm : regex_match j.1 RED_CHANNEL_MATCH = true) :
    mapFind (imfName (tempOutChanName j.1)) (loopBody st j).header.channels = some j.2 := by
  rw [loopBody_eq, target_of_red hm]
  exact mapFind_mapInsert_self _ _ _

/-! ## The command line -/

theorem usageMessageArgv0_ne_outOfFuel (argv : List Name) (verbose : Bool) :
    usageMessageArgv0 argv verbose ≠ .outOfFuel := by
  unfold usageMessageArgv0 usageMessage
  cases argv.get? 0 with
  | none => intro h; cases h
  | some a => intro h; cases h

/-- The bound on the number of iterations given to `parseLoop` by `main` is
never reached. -/
theorem parseLoop_fuel (argv : List Name) (fuel i : Nat) (a : Args)
    (hi0 : i ≤ argv.length) (h : argv.length + 1 ≤ fuel + i) :
    parseLoop argv fuel i a ≠ .error .outOfFuel := by
  induction fuel generalizing i a with
  | zero => omega
  | succ fuel ih =>
    unfold parseLoop
    by_cases hi : i < argv.length
    · rw [if_pos hi]
      cases h1 : argv.get? i with
      | none => intro hc; cases hc
      | some s =>
        simp only
        cases h2 : argv.get? (if s = "-v".toList then i + 1 else i) with
        | none => intro hc; cases hc
        | some s1 =>
          simp only
          have hi1 : (if s = "-v".toList then i + 1 else i) < argv.length := by
            have := List.get?_eq_some.1 h2
            exact this.1
          have hle : i ≤ (if s = "-v".toList then i + 1 else i) := by
            split_ifs <;> omega
          by_cases hh : s1 = "-h".toList
          · rw [if_pos hh]
            intro hc
            injection hc with hc
            exact usageMessageArgv0_ne_outOfFuel argv true hc
          · rw [if_neg hh]
            by_cases hin : a.inFile = []
            · rw [if_pos hin]
              exact ih _ _ (by omega) (by omega)
            · rw [if_neg hin]
              exact ih _ _ (by omega) (by omega)
    · rw [if_neg hi]
      intro hc; cases hc

theorem main_ne_outOfFuel (w : World) (argv : List Name) : main w argv ≠ .outOfFuel := by
  unfold main
  by_cases h2 : argv.length < 2
  · rw [if_pos h2]
    exact usageMessageArgv0_ne_outOfFuel argv true
  · rw [if_neg h2]
    cases hp : parseLoop argv argv.length 1 { inFile := [], outFile := [], verbose := false } with
    | error o =>
      simp only
      intro hc
      rw [hc] at hp
      exact parseLoop_fuel argv argv.length 1 _ (by omega) (by omega) hp
    | ok a =>
      simp only
      by_cases hin : a.inFile = []
      · rw [if_pos hin]
        exact usageMessageArgv0_ne_outOfFuel argv false
      · rw [if_neg hin]
        intro hc; cases hc

/-- With no argument at all `main` prints the usage text and exits with
status 1. -/
theorem main_no_arguments (w : World) (argv0 : Name) :
    main w [argv0] = .usage argv0 true ∧ (main w [argv0]).exitStatus = some 1 :=
  ⟨rfl, rfl⟩

/-! ## The claims -/

/-- C5 (at the failing input): the token `format_id` contains `mat_` but
does not begin with it; the specification leaves it unchanged, the program
drops its first four characters and names the output channel `matte.at_id`. -/
theorem C5_format_id_loses_four_characters :
    specNormalize "format_id".toList = "format_id".toList ∧
    removeMat "format_id".toList = "at_id".toList ∧
    channelToken "format_id.R".toList = "at_id".toList ∧
    regex_match "format_id.R".toList RED_CHANNEL_MATCH = true ∧
    tempOutChanName "format_id.R".toList = "matte.at_id".toList := by
  decide

/-- C6 (counterexample): `Ted` and `id.red` match the matte rule of the
program, though neither has the form `<token>.R` or `<token>.r`. -/
theorem C6_counterexample :
    (regex_match "Ted".toList RED_CHANNEL_MATCH = true ∧
      specMatteCandidate "Ted".toList = false) ∧
    (regex_match "id.red".toList RED_CHANNEL_MATCH = true ∧
      specMatteCandidate "id.red".toList = false) := by
  decide

/-- C6 (amended): every name `<token>.<suffix>`, with a non-empty token of
letters, digits and underscores and a non-empty suffix of characters among
`R`, `r`, `e`, `d` (in particular the suffix `R` or `r`), matches the matte
rule; a name that matches starts with a letter, digit or underscore, ends
with one of `R`, `r`, `e`, `d` and has at least three characters; `Red_dept`
does not match. -/
theorem C6_matte_rule :
    (∀ token suffix : Name, token ≠ [] → (∀ c ∈ token, isWordChar c = true) →
      suffix ≠ [] → (∀ c ∈ suffix, isRedChar c = true) →
      regex_match (token ++ '.' :: suffix) RED_CHANNEL_MATCH = true) ∧
    (∀ n : Name, specMatteCandidate n = true → regex_match n RED_CHANNEL_MATCH = true) ∧
    (∀ n : Name, regex_match n RED_CHANNEL_MATCH = true →
      3 ≤ n.length ∧ (∃ c, n.head? = some c ∧ isWordChar c = true) ∧
        (∃ c, n.getLast? = some c ∧ isRedChar c = true)) ∧
    regex_match "Red_dept".toList RED_CHANNEL_MATCH = false := by
  refine ⟨?_, ?_, ?_, by decide⟩
  · intro token suffix h1 h2 h3 h4
    exact (RED_CHANNEL_MATCH_iff _).2 ⟨token, '.', suffix, rfl, h1, h2, h3, h4⟩
  · intro n hn
    unfold specMatteCandidate at hn
    cases hrev : n.reverse with
    | nil => rw [hrev] at hn; cases hn
    | cons s t1 =>
      cases t1 with
      | nil => rw [hrev] at hn; cases hn
      | cons p t =>
        rw [hrev] at hn
        simp only [Bool.and_eq_true, Bool.or_eq_true, beq_iff_eq, Bool.not_eq_true',
          List.isEmpty_eq_false, List.all_eq_true] at hn
        obtain ⟨⟨⟨hs, hp⟩, hne⟩, hall⟩ := hn
        have hn2 : n = t.reverse ++ p :: [s] := by
          have := congrArg List.reverse hrev
          simpa using this
        refine (RED_CHANNEL_MATCH_iff _).2 ⟨t.reverse, p, [s], hn2, ?_, ?_, by simp, ?_⟩
        · simpa using hne
        · intro x hx
          exact hall x (List.mem_reverse.1 hx)
        · intro x hx
          rw [List.mem_singleton.1 hx]
          rcases hs with h | h <;> rw [h] <;> decide
  · intro n hn
    refine ⟨red_match_length hn, ?_, ?_⟩
    · obtain ⟨tok, c, suf, rfl, h1, h2, _, _⟩ := (RED_CHANNEL_MATCH_iff n).1 hn
      cases tok with
      | nil => exact absurd rfl h1
      | cons a tok => exact ⟨a, rfl, h2 a (List.mem_cons_self _ _)⟩
    · obtain ⟨tok, c, suf, rfl, _, _, h3, h4⟩ := (RED_CHANNEL_MATCH_iff n).1 hn
      cases suf with
      | nil => exact absurd rfl h3
      | cons x suf2 =>
        refine ⟨(x :: suf2).getLast (by simp), ?_, h4 _ (List.getLast_mem _)⟩
        rw [List.getLast?_append, List.getLast?_cons_cons, List.getLast?_eq_getLast _ (by simp)]
        rfl

/-- C6 (amended) holds at the name `mat_id.R`. -/
theorem C6_witness :
    regex_match ("mat_id".toList ++ '.' :: "R".toList) RED_CHANNEL_MATCH = true :=
  C6_matte_rule.1 "mat_id".toList "R".toList (by decide) (by decide) (by decide) (by decide)

/-- C8: the file operations of every run, successful or not, whatever the two
paths (equal or not), split into a first part without any open-for-write or
write and a second part without any read; when the second part is not empty
the first part ends with the full `readPixels` on the input file followed by
its close; so no open-for-write or write precedes a read. -/
theorem C8_reads_before_writes (w : World) (inFileName outFileName : Name) (verbose : Bool) :
    (∃ reads writes : List FileOp,
      (exr_channel_cleanup w inFileName outFileName verbose).trace = reads ++ writes ∧
      (∀ op ∈ reads, op.isWrite = false) ∧
      (∀ op ∈ writes, op.isRead = false) ∧
      (writes = [] ∨
        ∃ pre, reads = pre ++ [.readPixels inFileName, .closeRead inFileName])) ∧
    (exr_channel_cleanup w inFileName outFileName verbose).trace.Pairwise
      (fun a b => ¬ (a.isWrite = true ∧ b.isRead = true)) := by
  have key : ∃ reads writes : List FileOp,
      (exr_channel_cleanup w inFileName outFileName verbose).trace = reads ++ writes ∧
      (∀ op ∈ reads, op.isWrite = false) ∧
      (∀ op ∈ writes, op.isRead = false) ∧
      (writes = [] ∨
        ∃ pre, reads = pre ++ [.readPixels inFileName, .closeRead inFileName]) := by
    have hreads : ∀ op ∈ [FileOp.openRead inFileName, .closeRead inFileName] ++
        [.openRead inFileName] ++
        (if verbose then [FileOp.cout ("reading file ".toList ++ inFileName)] else []) ++
        [.readPixels inFileName, .closeRead inFileName], op.isWrite = false := by
      cases verbose <;> simp [FileOp.isWrite]
    unfold exr_channel_cleanup
    cases hin : mapFind inFileName w.files with
    | none =>
      refine ⟨[.openRead inFileName], [], rfl, ?_, ?_, Or.inl rfl⟩
      · intro op hop
        rw [List.mem_singleton.1 hop]; rfl
      · intro op hop; cases hop
    | some f =>
      simp only
      cases hr : readPixels f (channelLoop f.header.channels (loopInit f.header)).inFb
          (channelLoop f.header.channels (loopInit f.header)).image with
      | error x =>
        simp only
        refine ⟨_, [], (List.append_nil _).symm, ?_, ?_, Or.inl rfl⟩
        · cases verbose <;> simp [FileOp.isWrite]
        · intro op hop; cases hop
      | ok image =>
        simp only
        cases hh : headerSanityCheck
            (channelLoop f.header.channels (loopInit f.header)).header with
        | some x =>
          simp only
          exact ⟨_, [], (List.append_nil _).symm, hreads, (by intro op hop; cases hop),
            Or.inl rfl⟩
        | none =>
          simp only
          by_cases hro : outFileName ∈ w.readOnly
          · simp only [hro, if_true]
            refine ⟨_, [.openWrite outFileName], rfl, hreads, ?_, Or.inr ⟨_, rfl⟩⟩
            intro op hop
            rw [List.mem_singleton.1 hop]; rfl
          · simp only [hro, if_false]
            cases hw : writePixels (channelLoop f.header.channels (loopInit f.header)).header
                (channelLoop f.header.channels (loopInit f.header)).outFb image with
            | error x =>
              simp only
              refine ⟨_, [.openWrite outFileName] ++
                  (if verbose then [.cout ("writing file ".toList ++ outFileName)] else []) ++
                  [.closeWrite outFileName], ?_, hreads, ?_, Or.inr ⟨_, rfl⟩⟩
              · simp only [List.append_assoc]
              · cases verbose <;> simp [FileOp.isRead]
            | ok file =>
              simp only
              refine ⟨_, [.openWrite outFileName] ++
                  (if verbose then [.cout ("writing file ".toList ++ outFileName)] else []) ++
                  [.writePixels outFileName, .closeWrite outFileName], ?_, hreads, ?_,
                Or.inr ⟨_, rfl⟩⟩
              · simp only [List.append_assoc]
              · cases verbose <;> simp [FileOp.isRead]
  refine ⟨key, ?_⟩
  obtain ⟨reads, writes, ht, hr, hw, _⟩ := key
  rw [ht, List.pairwise_append]
  refine ⟨?_, ?_, ?_⟩
  · apply List.pairwise_of_forall_mem_list
    intro a ha b _ h
    rw [hr a ha] at h
    exact Bool.false_ne_true h.1
  · apply List.pairwise_of_forall_mem_list
    intro a _ b hb h
    rw [hw b hb] at h
    exact Bool.false_ne_true h.2
  · intro a ha b _ h
    rw [hr a ha] at h
    exact Bool.false_ne_true h.1

/-- C9 (at the failing input): with the lone option `-v` the loop of `main`
takes the option, moves to index 2 and hands `argv[2]` to `strcmp` although
`argc` is 2; the usage text is not printed and there is no exit status 1. -/
theorem C9_lone_v_reads_past_argv (w : World) (argv0 : Name) :
    main w [argv0, "-v".toList] = .argvOverrun 2 ∧
    main w [argv0, "-v".toList] ≠ .usage argv0 false ∧
    (main w [argv0, "-v".toList]).exitStatus = none := by
  have h : main w [argv0, "-v".toList] = .argvOverrun 2 := rfl
  refine ⟨h, ?_, ?_⟩
  · rw [h]; intro hc; cases hc
  · rw [h]; rfl

/-- C10: no name matches both `RED_CHANNEL_MATCH` and `RGBA_CHANNEL_MATCH`;
one pass of the loop body adds at most one output channel; the output channel
list has at most as many entries as the source channel list. -/
theorem C10_at_most_one_output_per_source :
    (∀ n : Name, ¬ (regex_match n RED_CHANNEL_MATCH = true ∧
        regex_match n RGBA_CHANNEL_MATCH = true)) ∧
    (∀ (st : LoopState) (j : Name × Channel),
      (loopBody st j).header.channels.length ≤ st.header.channels.length + 1) ∧
    (∀ header : Header, (plan header).length ≤ header.channels.length) := by
  refine ⟨red_rgba_disjoint, length_loopBody, ?_⟩
  intro header
  have := length_channelLoop header.channels (loopInit header)
  simpa [plan, loopInit] using this

end ExrChannelCleanup
